import Mathlib

/-!
Verification of the GlGeomCone mesh generator (GlGeomCone.h / GlGeomCone.cpp).

Shallow embedding conventions:
* the C++ `int` fields of the class are modelled as `ℤ` in the state machine
  (`GlGeomCone`, `Remesh`); the mesh-generation routines are modelled over `ℕ`
  resolution values, since every claim about them assumes a valid resolution
  (slices ≥ 3, nStacks ≥ 1, rings ≥ 1) and counts are then nonnegative;
* IEEE float values are modelled as `ℚ`; the calls to `sinf`/`cosf`/`sqrtf`
  inside `CalcVboAndEbo` are abstracted into a `FloatModel` of uninterpreted
  functions, so every theorem below holds for every interpretation of the
  trigonometric values (the claims proved here depend only on equalities of
  identical float expressions and on the exact constants 0, 1/2 and 1);
* a write of one vertex record at `VBOdataBuffer + stride * k` is modelled as
  the pair `(k, record)`: record granularity is the granularity at which the
  buffer-sizing claims are stated (the attribute sub-offsets inside one
  stride-sized record are part of the caller's layout contract);
* the element (EBO) buffer is written strictly sequentially through `eboPtr`,
  so it is modelled as the list of emitted indices in program order.
-/

/-! ## Count queries (GlGeomCone.h, lines 81-90) -/

/-- `GetNumElementsDisk` (GlGeomCone.h line 86): `3 * (2 * numRings - 1) * numSlices`. -/
def GetNumElementsDisk (slices rings : ℕ) : ℕ := 3 * (2 * rings - 1) * slices

/-- `GetNumVerticesDisk` (GlGeomCone.h line 87): `1 + numRings * numSlices`. -/
def GetNumVerticesDisk (slices rings : ℕ) : ℕ := 1 + rings * slices

/-- `GetNumElementsSide` (GlGeomCone.h line 88): `3 * (2 * numStacks - 1) * numSlices`. -/
def GetNumElementsSide (slices nStacks : ℕ) : ℕ := 3 * (2 * nStacks - 1) * slices

/-- `GetNumVerticesSideTexCoords` (GlGeomCone.h line 89). -/
def GetNumVerticesSideTexCoords (slices nStacks : ℕ) : ℕ := slices + nStacks * (slices + 1)

/-- `GetNumVerticesSideNoTexCoords` (GlGeomCone.h line 90). -/
def GetNumVerticesSideNoTexCoords (slices nStacks : ℕ) : ℕ := slices + nStacks * slices

/-- `GetNumElements` (GlGeomCone.h line 81). -/
def GetNumElements (slices nStacks rings : ℕ) : ℕ :=
  GetNumElementsDisk slices rings + GetNumElementsSide slices nStacks

/-- `GetNumVerticesTexCoords` (GlGeomCone.h line 82). -/
def GetNumVerticesTexCoords (slices nStacks rings : ℕ) : ℕ :=
  GetNumVerticesDisk slices rings + GetNumVerticesSideTexCoords slices nStacks

/-- `GetNumVerticesNoTexCoords` (GlGeomCone.h line 83). -/
def GetNumVerticesNoTexCoords (slices nStacks rings : ℕ) : ℕ :=
  GetNumVerticesDisk slices rings + GetNumVerticesSideNoTexCoords slices nStacks

/-- The vertex count matching a texture-coordinate choice: the caller sizes the
vertex buffer with `GetNumVerticesTexCoords` when texture coordinates are
requested and with `GetNumVerticesNoTexCoords` otherwise (GlGeomCone.h 77-83). -/
def vertexCount (slices nStacks rings : ℕ) (ct : Bool) : ℕ :=
  if ct then GetNumVerticesTexCoords slices nStacks rings
  else GetNumVerticesNoTexCoords slices nStacks rings

/-! ## Object state and `Remesh` (GlGeomCone.h 110-131, GlGeomCone.cpp 31-41) -/

/-- The mutable state of a `GlGeomCone` object: the three `int` resolution
fields (GlGeomCone.h lines 111-113) and the `VboEboLoaded` flag (line 117). -/
structure GlGeomCone where
  numSlices : ℤ
  numStacks : ℤ
  numRings : ℤ
  VboEboLoaded : Bool
deriving DecidableEq

/-- Modelled from the spec: `ClampRange` comes from `MathMisc.h`, which is not
among the repository sources; the spec says `Remesh` "clamps each independently
into its valid range", so `ClampRange x lo hi` clamps the integer `x` into
`[lo, hi]`. -/
def ClampRange (x lo hi : ℤ) : ℤ :=
  if x < lo then lo else if hi < x then hi else x

/-- The constructor `GlGeomCone::GlGeomCone(int, int, int)` (GlGeomCone.h lines
126-131): it stores the three arguments unmodified; `VboEboLoaded` starts out
`false` (field initializer, line 117). -/
def mkGlGeomCone (slices nStacks rings : ℤ) : GlGeomCone :=
  ⟨slices, nStacks, rings, false⟩

/-- `GlGeomCone::Remesh` (GlGeomCone.cpp lines 31-41): early-returns when the
raw arguments all equal the stored fields, otherwise stores the clamped values
and clears `VboEboLoaded`. -/
def Remesh (st : GlGeomCone) (slices nStacks rings : ℤ) : GlGeomCone :=
  if slices = st.numSlices ∧ nStacks = st.numStacks ∧ rings = st.numRings then st
  else
    ⟨ClampRange slices 3 255, ClampRange nStacks 1 255, ClampRange rings 1 255, false⟩

/-- `GlGeomCone::InitializeAttribLocations` (GlGeomCone.cpp lines 182-190) as
observed on the modelled state: the reload step sets `VboEboLoaded = true`. -/
def ReloadVboEbo (st : GlGeomCone) : GlGeomCone :=
  { st with VboEboLoaded := true }

/-- The resolution ranges the spec claims as an invariant:
slices in [3,255], nStacks in [1,255], rings in [1,255]. -/
def validResolution (st : GlGeomCone) : Prop :=
  3 ≤ st.numSlices ∧ st.numSlices ≤ 255 ∧
  1 ≤ st.numStacks ∧ st.numStacks ≤ 255 ∧
  1 ≤ st.numRings ∧ st.numRings ≤ 255

instance (st : GlGeomCone) : Decidable (validResolution st) := by
  unfold validResolution
  infer_instance

/-! ## Vertex data written by `CalcVboAndEbo` (GlGeomCone.cpp 43-113, 156-180) -/

/-- One vertex record in the VBO: position, and the optional normal and
texture-coordinate attributes (absent when the matching offset is negative). -/
structure VertexData where
  pos : ℚ × ℚ × ℚ
  normal : Option (ℚ × ℚ × ℚ)
  texcoords : Option (ℚ × ℚ)
deriving DecidableEq

/-- Uninterpreted float values feeding `CalcVboAndEbo`:
`sinTheta k` models `-sinf(k * PI2 / numSlices)` and `cosTheta k` models
`-cosf(k * PI2 / numSlices)` (GlGeomCone.cpp lines 58-60, already negated as in
the source); `sinApex i` and `cosApex i` model `-sinf(thetaApex)` and
`-cosf(thetaApex)` for `thetaApex = (2 i + 1) * PI2 / (2 * numSlices)` (lines
101-104); `rt2` models `sqrtf(2.0f)`.  All theorems hold for every
interpretation of these values. -/
structure FloatModel where
  sinTheta : ℕ → ℚ
  cosTheta : ℕ → ℚ
  sinApex : ℕ → ℚ
  cosApex : ℕ → ℚ
  rt2 : ℚ

/-- `GlGeomCone::SetBaseVert` (GlGeomCone.cpp lines 156-180): writes the record
at index `i * numRings + j` (the pointer `VBOdataBuffer + stride * (i*numRings
+ j)`), with position `(x, 0, z)`, downward normal `(0, -1, 0)` when normals
are on, and texture coordinates `(0.5 (1 - x), 0.5 (1 - z))` when requested. -/
def SetBaseVert (rings : ℕ) (calcNormals calcTexCoords : Bool) (x z : ℚ) (i j : ℕ) :
    ℕ × VertexData :=
  (i * rings + j,
   { pos := (x, 0, z)
     normal := if calcNormals then some (0, -1, 0) else none
     texcoords := if calcTexCoords then some (1/2 * (1 - x), 1/2 * (1 - z)) else none })

/-- One side vertex (GlGeomCone.cpp lines 73-91): at slice `i`, stack `j`, with
`s = -sinf(theta)`, `c = -cosf(theta)` for `theta` computed from `i % numSlices`
(line 58), `sCoord = i / numSlices`, `tCoord = j / numStacks`,
`slopeFactor = 1 - tCoord`. -/
def sideVertex (fm : FloatModel) (slices nStacks : ℕ) (calcNormals calcTexCoords : Bool)
    (i j : ℕ) : VertexData :=
  let s := fm.sinTheta (i % slices)
  let c := fm.cosTheta (i % slices)
  let sCoord : ℚ := (i : ℚ) / (slices : ℚ)
  let tCoord : ℚ := (j : ℚ) / (nStacks : ℚ)
  let slopeFactor : ℚ := 1 - tCoord
  { pos := (s * slopeFactor, tCoord, c * slopeFactor)
    normal := if calcNormals then some (s * fm.rt2, fm.rt2, c * fm.rt2) else none
    texcoords := if calcTexCoords then some (sCoord, tCoord) else none }

/-- The apex vertex of slice `i` (GlGeomCone.cpp lines 92-112): position exactly
`(0, 1, 0)`, normal from the mid-angle `thetaApex`, texture coordinates
`(0.5, 1.0)`. -/
def apexVertex (fm : FloatModel) (calcNormals calcTexCoords : Bool) (i : ℕ) : VertexData :=
  { pos := (0, 1, 0)
    normal := if calcNormals then some (fm.sinApex i * fm.rt2, fm.rt2, fm.cosApex i * fm.rt2)
              else none
    texcoords := if calcTexCoords then some (1/2, 1) else none }

/-- The vertex-record writes of one iteration `i` of the main loop of
`CalcVboAndEbo` (GlGeomCone.cpp lines 55-113), in program order: the disk ring
vertices (guarded by `i < numSlices`, lines 61-67, at records `i*numRings + j`
via `SetBaseVert`), then the `numStacks` side vertices at records
`GetNumVerticesDisk() + i*(numStacks+1) + j` (line 69), then the apex vertex at
record `GetNumVerticesDisk() + i*(numStacks+1) + numStacks` (guarded by
`i < numSlices`, lines 92-112). -/
def sliceVboBlock (fm : FloatModel) (slices nStacks rings : ℕ)
    (calcNormals calcTexCoords : Bool) (i : ℕ) : List (ℕ × VertexData) :=
  (if i < slices then
    (List.range rings).map (fun j0 =>
      let j : ℕ := j0 + 1
      let radius : ℚ := (j : ℚ) / (rings : ℚ)
      SetBaseVert rings calcNormals calcTexCoords
        (fm.sinTheta (i % slices) * radius) (fm.cosTheta (i % slices) * radius) i j)
   else [])
  ++ (List.range nStacks).map (fun j =>
       (GetNumVerticesDisk slices rings + i * (nStacks + 1) + j,
        sideVertex fm slices nStacks calcNormals calcTexCoords i j))
  ++ (if i < slices then
       [(GetNumVerticesDisk slices rings + i * (nStacks + 1) + nStacks,
         apexVertex fm calcNormals calcTexCoords i)]
      else [])

/-- The VBO writes of `CalcVboAndEbo` (GlGeomCone.cpp lines 52-113) in program
order: the base center vertex (line 53), then the loop over slice indices `i`
from `0` to `stopSlices` inclusive, with `stopSlices = numSlices` when texture
coordinates are on and `numSlices - 1` otherwise (line 54; the claims below all
assume `slices ≥ 3`, where the `ℕ` subtraction agrees with the C `int`). -/
def CalcVbo (fm : FloatModel) (slices nStacks rings : ℕ)
    (calcNormals calcTexCoords : Bool) : List (ℕ × VertexData) :=
  let stopSlices := if calcTexCoords then slices else slices - 1
  SetBaseVert rings calcNormals calcTexCoords 0 0 0 0 ::
    (List.range (stopSlices + 1)).flatMap
      (sliceVboBlock fm slices nStacks rings calcNormals calcTexCoords)

/-- The disk element-buffer entries emitted for slice `i` (GlGeomCone.cpp lines
118-133): the fan triangle `0, rightR, r`, then two triangles per ring quad. -/
def diskEboSlice (slices rings : ℕ) (i : ℕ) : List ℕ :=
  let r := i * rings + 1
  let rightR := ((i + 1) % slices) * rings + 1
  [0, rightR, r]
  ++ (List.range (rings - 1)).flatMap (fun j =>
       [r + j, rightR + j, rightR + j + 1,
        r + j, rightR + j + 1, r + j + 1])

/-- The side element-buffer entries emitted for slice `i` (GlGeomCone.cpp lines
135-153): two triangles per stack quad for `j < numStacks - 1`, then the final
apex triangle with the loop variable left at `j = numStacks - 1`. -/
def sideEboSlice (slices nStacks rings : ℕ) (calcTexCoords : Bool) (i : ℕ) : List ℕ :=
  let r := i * (nStacks + 1) + GetNumVerticesDisk slices rings
  let ii := if calcTexCoords then i + 1 else (i + 1) % slices
  let rightR := ii * (nStacks + 1) + GetNumVerticesDisk slices rings
  (List.range (nStacks - 1)).flatMap (fun j =>
    [rightR + j, r + j + 1, r + j,
     rightR + j, rightR + j + 1, r + j + 1])
  ++ [rightR + (nStacks - 1), r + (nStacks - 1) + 1, r + (nStacks - 1)]

/-- The EBO contents written by `CalcVboAndEbo` (GlGeomCone.cpp lines 115-153)
in program order: all disk entries, then all side entries. -/
def CalcEbo (slices nStacks rings : ℕ) (calcTexCoords : Bool) : List ℕ :=
  (List.range slices).flatMap (diskEboSlice slices rings)
  ++ (List.range slices).flatMap (sideEboSlice slices nStacks rings calcTexCoords)

/-- `GlGeomCone::CalcVboAndEbo` (GlGeomCone.cpp lines 43-154): takes the normal
and texture-coordinate offsets (the C `int` arguments), derives
`calcNormals = (vertNormalOffset >= 0)` and `calcTexCoords =
(vertTexCoordsOffset >= 0)` (lines 47-48), and produces the VBO record writes
and the EBO entries. -/
def CalcVboAndEbo (fm : FloatModel) (slices nStacks rings : ℕ)
    (vertNormalOffset vertTexCoordsOffset : ℤ) : List (ℕ × VertexData) × List ℕ :=
  let calcNormals := decide (0 ≤ vertNormalOffset)
  let calcTexCoords := decide (0 ≤ vertTexCoordsOffset)
  (CalcVbo fm slices nStacks rings calcNormals calcTexCoords,
   CalcEbo slices nStacks rings calcTexCoords)

/-- The disk element entries of slice `i`, grouped as triangles (three corners
per triangle, same order as `diskEboSlice`). -/
def diskTriSlice (slices rings : ℕ) (i : ℕ) : List (ℕ × ℕ × ℕ) :=
  let r := i * rings + 1
  let rightR := ((i + 1) % slices) * rings + 1
  (0, rightR, r)
  :: (List.range (rings - 1)).flatMap (fun j =>
       [(r + j, rightR + j, rightR + j + 1),
        (r + j, rightR + j + 1, r + j + 1)])

/-- The side element entries of slice `i`, grouped as triangles (three corners
per triangle, same order as `sideEboSlice`). -/
def sideTriSlice (slices nStacks rings : ℕ) (calcTexCoords : Bool) (i : ℕ) :
    List (ℕ × ℕ × ℕ) :=
  let r := i * (nStacks + 1) + GetNumVerticesDisk slices rings
  let ii := if calcTexCoords then i + 1 else (i + 1) % slices
  let rightR := ii * (nStacks + 1) + GetNumVerticesDisk slices rings
  (List.range (nStacks - 1)).flatMap (fun j =>
    [(rightR + j, r + j + 1, r + j),
     (rightR + j, rightR + j + 1, r + j + 1)])
  ++ [(rightR + (nStacks - 1), r + (nStacks - 1) + 1, r + (nStacks - 1))]

/-- The emitted element buffer grouped into triangles, disk region first. -/
def EboTriangles (slices nStacks rings : ℕ) (calcTexCoords : Bool) : List (ℕ × ℕ × ℕ) :=
  (List.range slices).flatMap (diskTriSlice slices rings)
  ++ (List.range slices).flatMap (sideTriSlice slices nStacks rings calcTexCoords)

/-! ## Helper lemmas -/

lemma clampRange_lb (x lo hi : ℤ) (h : lo ≤ hi) : lo ≤ ClampRange x lo hi := by
  unfold ClampRange
  split
  · omega
  · split <;> omega

lemma clampRange_ub (x lo hi : ℤ) (h : lo ≤ hi) : ClampRange x lo hi ≤ hi := by
  unfold ClampRange
  split
  · omega
  · split <;> omega

lemma clampRange_eq_self (x lo hi : ℤ) (h1 : lo ≤ x) (h2 : x ≤ hi) :
    ClampRange x lo hi = x := by
  unfold ClampRange
  split
  · omega
  · split <;> omega

/-! ## Claim C2: the count formulas -/

/-- Claim C2: for every resolution triple, disk triangle count is
`slices * (2 * rings - 1)` (so the disk element count is three times that),
disk vertex count is `1 + slices * rings`, side triangle count is
`slices * (2 * nStacks - 1)`, and side vertex count is `slices * nStacks +
slices` without texture coordinates and `slices + nStacks * (slices + 1)` with
them. -/
theorem count_query_formulas (slices nStacks rings : ℕ) :
    GetNumElementsDisk slices rings = 3 * (slices * (2 * rings - 1)) ∧
    GetNumVerticesDisk slices rings = 1 + slices * rings ∧
    GetNumElementsSide slices nStacks = 3 * (slices * (2 * nStacks - 1)) ∧
    GetNumVerticesSideNoTexCoords slices nStacks = slices * nStacks + slices ∧
    GetNumVerticesSideTexCoords slices nStacks = slices + nStacks * (slices + 1) := by
  have hmul : ∀ k s : ℕ, 3 * k * s = 3 * (s * k) := fun k s => by ring
  refine ⟨hmul _ _, ?_, hmul _ _, ?_, rfl⟩
  · unfold GetNumVerticesDisk
    ring
  · unfold GetNumVerticesSideNoTexCoords
    ring

/-! ## Claim C4: the clamping invariant -/

/-- Claim C4 counterexample: constructing a `GlGeomCone` with arguments
`(2, 0, 0)` yields a reachable state whose stored triple violates the claimed
ranges: the constructor (GlGeomCone.h lines 126-131) stores its arguments
without clamping. -/
theorem construction_violates_resolution_ranges :
    ¬ validResolution (mkGlGeomCone 2 0 0) := by decide

/-- Claim C4 (amended): the constructor stores its arguments unclamped, so a
freshly constructed state can violate the ranges; but every `Remesh` call that
changes the state establishes `slices ∈ [3,255]`, `nStacks ∈ [1,255]`,
`rings ∈ [1,255]`, and `Remesh` preserves the ranges once they hold. -/
theorem remesh_establishes_resolution_ranges (st : GlGeomCone) (a b c : ℤ) :
    (Remesh st a b c ≠ st → validResolution (Remesh st a b c)) ∧
    (validResolution st → validResolution (Remesh st a b c)) := by
  unfold Remesh
  split
  · exact ⟨fun h => absurd rfl h, fun h => h⟩
  · have hv : validResolution
        ⟨ClampRange a 3 255, ClampRange b 1 255, ClampRange c 1 255, false⟩ :=
      ⟨clampRange_lb a 3 255 (by omega), clampRange_ub a 3 255 (by omega),
       clampRange_lb b 1 255 (by omega), clampRange_ub b 1 255 (by omega),
       clampRange_lb c 1 255 (by omega), clampRange_ub c 1 255 (by omega)⟩
    exact ⟨fun _ => hv, fun _ => hv⟩

/-- Witness for the amended C4 theorem at a concrete state and arguments. -/
theorem remesh_establishes_resolution_ranges_witness :
    validResolution (Remesh (mkGlGeomCone 3 1 1) 1000 1 1) :=
  (remesh_establishes_resolution_ranges (mkGlGeomCone 3 1 1) 1000 1 1).2 (by decide)

/-! ## Claim C5: when `Remesh` is a no-op -/

/-- Claim C5 counterexample: starting from the reachable state with stored
triple `(255, 1, 1)` and the loaded flag set, the call `Remesh(1000, 1, 1)` has
a clamped triple equal to the stored triple, yet it is not a no-op: it clears
the loaded flag, because the source compares the raw arguments, not the clamped
ones (GlGeomCone.cpp line 33). -/
theorem remesh_invalidates_despite_equal_clamped_triple :
    (ClampRange 1000 3 255 =
        (ReloadVboEbo (Remesh (mkGlGeomCone 3 1 1) 1000 1 1)).numSlices ∧
      ClampRange 1 1 255 =
        (ReloadVboEbo (Remesh (mkGlGeomCone 3 1 1) 1000 1 1)).numStacks ∧
      ClampRange 1 1 255 =
        (ReloadVboEbo (Remesh (mkGlGeomCone 3 1 1) 1000 1 1)).numRings) ∧
    (ReloadVboEbo (Remesh (mkGlGeomCone 3 1 1) 1000 1 1)).VboEboLoaded = true ∧
    (Remesh (ReloadVboEbo (Remesh (mkGlGeomCone 3 1 1) 1000 1 1)) 1000 1 1).VboEboLoaded
      = false := by decide

/-- Claim C5 (amended): `Remesh` is a no-op exactly when the raw arguments
equal the stored triple; otherwise it stores the clamped triple and clears the
loaded flag. -/
theorem remesh_noop_iff_raw_args_equal (st : GlGeomCone) (a b c : ℤ) :
    ((a = st.numSlices ∧ b = st.numStacks ∧ c = st.numRings) → Remesh st a b c = st) ∧
    (¬(a = st.numSlices ∧ b = st.numStacks ∧ c = st.numRings) →
      Remesh st a b c =
        ⟨ClampRange a 3 255, ClampRange b 1 255, ClampRange c 1 255, false⟩) := by
  constructor
  · intro h
    simp only [Remesh, if_pos h]
  · intro h
    simp only [Remesh, if_neg h]

/-- Witness for the amended C5 theorem at a concrete state and arguments. -/
theorem remesh_noop_iff_raw_args_equal_witness :
    Remesh (mkGlGeomCone 3 1 1) 3 1 1 = mkGlGeomCone 3 1 1 :=
  (remesh_noop_iff_raw_args_equal (mkGlGeomCone 3 1 1) 3 1 1).1 (by decide)

/-! ## Claim C6: idempotence of `Remesh` -/

/-- Claim C6 counterexample: with the out-of-range argument `slices = 1000`,
calling `Remesh(1000, 1, 1)` a second time after the first invalidation has
been consumed clears the loaded flag again (the raw argument `1000` never
equals the stored clamped value `255`), contradicting the claimed idempotence
for possibly-out-of-range arguments. -/
theorem remesh_same_out_of_range_args_reinvalidates :
    (Remesh (ReloadVboEbo (Remesh (mkGlGeomCone 3 1 1) 1000 1 1)) 1000 1 1).VboEboLoaded
      = false := by decide

/-- Claim C6 (amended): for arguments inside the valid ranges, a second
`Remesh` with the same arguments after the first invalidation has been consumed
leaves the loaded flag set; for out-of-range arguments the second call
invalidates again. -/
theorem remesh_idempotent_for_inrange_args (st : GlGeomCone) (a b c : ℤ)
    (ha1 : 3 ≤ a) (ha2 : a ≤ 255) (hb1 : 1 ≤ b) (hb2 : b ≤ 255)
    (hc1 : 1 ≤ c) (hc2 : c ≤ 255) :
    (Remesh (ReloadVboEbo (Remesh st a b c)) a b c).VboEboLoaded = true := by
  by_cases h : a = st.numSlices ∧ b = st.numStacks ∧ c = st.numRings
  · simp only [Remesh, if_pos h, ReloadVboEbo]
  · simp only [Remesh, if_neg h, ReloadVboEbo]
    have h2 : a = ClampRange a 3 255 ∧ b = ClampRange b 1 255 ∧ c = ClampRange c 1 255 :=
      ⟨(clampRange_eq_self a 3 255 ha1 ha2).symm,
       (clampRange_eq_self b 1 255 hb1 hb2).symm,
       (clampRange_eq_self c 1 255 hc1 hc2).symm⟩
    simp only [if_pos h2]

/-- Witness for the amended C6 theorem at a concrete state and arguments. -/
theorem remesh_idempotent_for_inrange_args_witness :
    (Remesh (ReloadVboEbo (Remesh (mkGlGeomCone 5 2 2) 3 1 1)) 3 1 1).VboEboLoaded
      = true :=
  remesh_idempotent_for_inrange_args (mkGlGeomCone 5 2 2) 3 1 1
    (by decide) (by decide) (by decide) (by decide) (by decide) (by decide)

/-! ## List and arithmetic helpers for the buffer lemmas -/

lemma sum_map_range_const (n c : ℕ) : ((List.range n).map (fun _ => c)).sum = n * c := by
  induction n with
  | zero => simp
  | succ m ih =>
    rw [List.range_succ]
    simp only [List.map_append, List.map_cons, List.map_nil, List.sum_append,
      List.sum_cons, List.sum_nil, ih]
    ring

lemma sliceVboBlock_length (fm : FloatModel) (slices nStacks rings : ℕ)
    (cn ct : Bool) (i : ℕ) :
    (sliceVboBlock fm slices nStacks rings cn ct i).length
      = (if i < slices then rings else 0) + nStacks + (if i < slices then 1 else 0) := by
  by_cases h : i < slices <;> simp [sliceVboBlock, h]
  omega

lemma calcVbo_length (fm : FloatModel) (slices nStacks rings : ℕ)
    (cn ct : Bool) (hs : 1 ≤ slices) :
    (CalcVbo fm slices nStacks rings cn ct).length
      = vertexCount slices nStacks rings ct := by
  unfold CalcVbo
  cases ct
  · have hrange : (slices - 1) + 1 = slices := by omega
    simp only [Bool.false_eq_true, if_false, hrange, List.length_cons, List.length_flatMap,
      Function.comp_def]
    have hcong : (List.range slices).map
          (fun i => (sliceVboBlock fm slices nStacks rings cn false i).length)
        = (List.range slices).map (fun _ => rings + nStacks + 1) := by
      refine List.map_congr_left (fun i hi => ?_)
      rw [sliceVboBlock_length]
      simp [List.mem_range.mp hi]
    rw [hcong, sum_map_range_const]
    unfold vertexCount GetNumVerticesNoTexCoords GetNumVerticesDisk
      GetNumVerticesSideNoTexCoords
    simp only [Bool.false_eq_true, if_false]
    ring
  · simp only [if_true, List.length_cons, List.length_flatMap, Function.comp_def]
    rw [List.range_succ]
    simp only [List.map_append, List.map_cons, List.map_nil, List.sum_append,
      List.sum_cons, List.sum_nil]
    have hcong : (List.range slices).map
          (fun i => (sliceVboBlock fm slices nStacks rings cn true i).length)
        = (List.range slices).map (fun _ => rings + nStacks + 1) := by
      refine List.map_congr_left (fun i hi => ?_)
      rw [sliceVboBlock_length]
      simp [List.mem_range.mp hi]
    rw [hcong, sum_map_range_const, sliceVboBlock_length]
    simp only [lt_irrefl, if_false]
    unfold vertexCount GetNumVerticesTexCoords GetNumVerticesDisk
      GetNumVerticesSideTexCoords
    simp only [if_true]
    ring

lemma diskEboSlice_length (slices rings : ℕ) (i : ℕ) (hr : 1 ≤ rings) :
    (diskEboSlice slices rings i).length = 3 * (2 * rings - 1) := by
  unfold diskEboSlice
  simp only [List.length_append, List.length_cons, List.length_nil, List.length_flatMap,
    Function.comp_def]
  rw [sum_map_range_const]
  omega

lemma sideEboSlice_length (slices nStacks rings : ℕ) (ct : Bool) (i : ℕ)
    (hn : 1 ≤ nStacks) :
    (sideEboSlice slices nStacks rings ct i).length = 3 * (2 * nStacks - 1) := by
  unfold sideEboSlice
  simp only [List.length_append, List.length_cons, List.length_nil, List.length_flatMap,
    Function.comp_def]
  rw [sum_map_range_const]
  omega

lemma calcEbo_length (slices nStacks rings : ℕ) (ct : Bool)
    (hn : 1 ≤ nStacks) (hr : 1 ≤ rings) :
    (CalcEbo slices nStacks rings ct).length = GetNumElements slices nStacks rings := by
  unfold CalcEbo
  simp only [List.length_append, List.length_flatMap, Function.comp_def]
  have h1 : (List.range slices).map (fun i => (diskEboSlice slices rings i).length)
      = (List.range slices).map (fun _ => 3 * (2 * rings - 1)) :=
    List.map_congr_left (fun i _ => diskEboSlice_length slices rings i hr)
  have h2 : (List.range slices).map
        (fun i => (sideEboSlice slices nStacks rings ct i).length)
      = (List.range slices).map (fun _ => 3 * (2 * nStacks - 1)) :=
    List.map_congr_left (fun i _ => sideEboSlice_length slices nStacks rings ct i hn)
  rw [h1, h2, sum_map_range_const, sum_map_range_const]
  unfold GetNumElements GetNumElementsDisk GetNumElementsSide
  have ha : ∀ a b s : ℕ, s * a + s * b = a * s + b * s := fun a b s => by ring
  exact ha _ _ _

lemma disk_slot_lt {slices rings i j0 : ℕ} (hi : i < slices) (hj0 : j0 < rings) :
    i * rings + (j0 + 1) < GetNumVerticesDisk slices rings := by
  have h1 : (i + 1) * rings ≤ slices * rings := Nat.mul_le_mul hi (le_refl rings)
  have h2 : (i + 1) * rings = i * rings + rings := by ring
  have h3 : slices * rings = rings * slices := by ring
  unfold GetNumVerticesDisk
  omega

lemma side_slot_lt_of_lt {slices nStacks i j : ℕ} (hi : i < slices) (hj : j ≤ nStacks) :
    i * (nStacks + 1) + j < slices * (nStacks + 1) := by
  have h1 : (i + 1) * (nStacks + 1) ≤ slices * (nStacks + 1) :=
    Nat.mul_le_mul hi (le_refl _)
  have h2 : (i + 1) * (nStacks + 1) = i * (nStacks + 1) + (nStacks + 1) := by ring
  omega

lemma side_slot_lt_of_le {slices nStacks i j : ℕ} (hi : i ≤ slices) (hj : j < nStacks) :
    i * (nStacks + 1) + j < slices * (nStacks + 1) + nStacks := by
  have h1 : i * (nStacks + 1) ≤ slices * (nStacks + 1) := Nat.mul_le_mul hi (le_refl _)
  omega

lemma sideNoTC_eq (slices nStacks : ℕ) :
    GetNumVerticesSideNoTexCoords slices nStacks = slices * (nStacks + 1) := by
  unfold GetNumVerticesSideNoTexCoords
  ring

lemma sideTC_eq (slices nStacks : ℕ) :
    GetNumVerticesSideTexCoords slices nStacks = slices * (nStacks + 1) + nStacks := by
  unfold GetNumVerticesSideTexCoords
  ring

lemma vertexCount_eq (slices nStacks rings : ℕ) (ct : Bool) :
    vertexCount slices nStacks rings ct
      = GetNumVerticesDisk slices rings
        + (if ct then slices * (nStacks + 1) + nStacks else slices * (nStacks + 1)) := by
  cases ct
  · simp only [vertexCount, Bool.false_eq_true, if_false, GetNumVerticesNoTexCoords,
      sideNoTC_eq]
  · simp only [vertexCount, if_true, GetNumVerticesTexCoords, sideTC_eq]

lemma fst_of_mem_sliceVboBlock {fm : FloatModel} {slices nStacks rings : ℕ}
    {cn ct : Bool} {i : ℕ} {p : ℕ × VertexData}
    (h : p ∈ sliceVboBlock fm slices nStacks rings cn ct i) :
    (i < slices ∧ ∃ j0 < rings, p.1 = i * rings + (j0 + 1)) ∨
    (∃ j < nStacks, p.1 = GetNumVerticesDisk slices rings + i * (nStacks + 1) + j) ∨
    (i < slices ∧ p.1 = GetNumVerticesDisk slices rings + i * (nStacks + 1) + nStacks) := by
  unfold sliceVboBlock at h
  rcases List.mem_append.mp h with h12 | h3
  · rcases List.mem_append.mp h12 with h1 | h2
    · by_cases hi : i < slices
      · rw [if_pos hi] at h1
        obtain ⟨j0, hj0, hpe⟩ := List.mem_map.mp h1
        refine Or.inl ⟨hi, j0, List.mem_range.mp hj0, ?_⟩
        rw [← hpe]
        rfl
      · rw [if_neg hi] at h1
        exact absurd h1 (List.not_mem_nil p)
    · obtain ⟨j, hj, hpe⟩ := List.mem_map.mp h2
      refine Or.inr (Or.inl ⟨j, List.mem_range.mp hj, ?_⟩)
      rw [← hpe]
  · by_cases hi : i < slices
    · rw [if_pos hi] at h3
      rw [List.mem_singleton] at h3
      refine Or.inr (Or.inr ⟨hi, ?_⟩)
      rw [h3]
    · rw [if_neg hi] at h3
      exact absurd h3 (List.not_mem_nil p)

lemma calcVbo_fst_lt {fm : FloatModel} {slices nStacks rings : ℕ} {cn ct : Bool}
    (hs : 1 ≤ slices) {p : ℕ × VertexData}
    (h : p ∈ CalcVbo fm slices nStacks rings cn ct) :
    p.1 < vertexCount slices nStacks rings ct := by
  have hvc := vertexCount_eq slices nStacks rings ct
  have hvd : 1 ≤ GetNumVerticesDisk slices rings := by
    unfold GetNumVerticesDisk
    omega
  unfold CalcVbo at h
  rcases List.mem_cons.mp h with hc | hm
  · have h0 : p.1 = 0 * rings + 0 := by rw [hc]; rfl
    cases ct <;> simp only [Bool.false_eq_true, if_false, if_true] at hvc <;> omega
  · obtain ⟨i, hir, hpb⟩ := List.mem_flatMap.mp hm
    have hi2 := List.mem_range.mp hir
    rcases fst_of_mem_sliceVboBlock hpb with ⟨hi, j0, hj0, hp1⟩ | ⟨j, hj, hp1⟩ | ⟨hi, hp1⟩
    · have hd := disk_slot_lt hi hj0
      cases ct <;> simp only [Bool.false_eq_true, if_false, if_true] at hvc <;> omega
    · cases ct
      · simp only [Bool.false_eq_true, if_false] at hvc hi2
        have hi3 : i < slices := by omega
        have hb := side_slot_lt_of_lt hi3 (Nat.le_of_lt hj)
        omega
      · simp only [if_true] at hvc hi2
        have hi3 : i ≤ slices := by omega
        have hb := side_slot_lt_of_le hi3 hj
        omega
    · have hb := side_slot_lt_of_lt hi (le_refl nStacks)
      cases ct <;> simp only [Bool.false_eq_true, if_false, if_true] at hvc <;> omega

lemma cover_disk_block (fm : FloatModel) (slices nStacks rings : ℕ) (cn ct : Bool)
    {i j0 : ℕ} (hi : i < slices) (hj0 : j0 < rings) :
    ∃ p ∈ sliceVboBlock fm slices nStacks rings cn ct i, p.1 = i * rings + (j0 + 1) := by
  unfold sliceVboBlock
  rw [if_pos hi]
  refine ⟨_, List.mem_append_left _
    (List.mem_append_left _ (List.mem_map.mpr ⟨j0, List.mem_range.mpr hj0, rfl⟩)), ?_⟩
  rfl

lemma cover_side_block (fm : FloatModel) (slices nStacks rings : ℕ) (cn ct : Bool)
    {i j : ℕ} (hj : j < nStacks) :
    ∃ p ∈ sliceVboBlock fm slices nStacks rings cn ct i,
      p.1 = GetNumVerticesDisk slices rings + i * (nStacks + 1) + j := by
  unfold sliceVboBlock
  refine ⟨_, List.mem_append_left _
    (List.mem_append_right _ (List.mem_map.mpr ⟨j, List.mem_range.mpr hj, rfl⟩)), ?_⟩
  rfl

lemma cover_apex_block (fm : FloatModel) (slices nStacks rings : ℕ) (cn ct : Bool)
    {i : ℕ} (hi : i < slices) :
    ∃ p ∈ sliceVboBlock fm slices nStacks rings cn ct i,
      p.1 = GetNumVerticesDisk slices rings + i * (nStacks + 1) + nStacks := by
  unfold sliceVboBlock
  rw [if_pos hi, if_pos hi]
  exact ⟨_, List.mem_append_right _ (List.mem_singleton.mpr rfl), rfl⟩

lemma mem_calcVbo_of_block {fm : FloatModel} {slices nStacks rings : ℕ} {cn ct : Bool}
    {i k : ℕ} (hi : i < (if ct then slices else slices - 1) + 1)
    (h : ∃ p ∈ sliceVboBlock fm slices nStacks rings cn ct i, p.1 = k) :
    ∃ p ∈ CalcVbo fm slices nStacks rings cn ct, p.1 = k := by
  obtain ⟨p, hp, hk⟩ := h
  exact ⟨p, List.mem_cons_of_mem _
    (List.mem_flatMap.mpr ⟨i, List.mem_range.mpr hi, hp⟩), hk⟩

lemma calcVbo_covers {fm : FloatModel} {slices nStacks rings : ℕ} {cn ct : Bool}
    (hs : 1 ≤ slices) (hr : 1 ≤ rings) {k : ℕ}
    (hk : k < vertexCount slices nStacks rings ct) :
    ∃ p ∈ CalcVbo fm slices nStacks rings cn ct, p.1 = k := by
  have hvc := vertexCount_eq slices nStacks rings ct
  rcases Nat.lt_or_ge k (GetNumVerticesDisk slices rings) with hksm | hklg
  · rcases Nat.eq_zero_or_pos k with hk0 | hkpos
    · refine ⟨SetBaseVert rings cn ct 0 0 0 0, List.mem_cons_self _ _, ?_⟩
      simp [SetBaseVert, hk0]
    · have hid : rings * ((k - 1) / rings) + (k - 1) % rings = k - 1 :=
        Nat.div_add_mod (k - 1) rings
      have hj0 : (k - 1) % rings < rings := Nat.mod_lt _ hr
      have hi : (k - 1) / rings < slices := by
        have hiff : (k - 1) / rings < slices ↔ k - 1 < slices * rings :=
          Nat.div_lt_iff_lt_mul hr
        have hcm : rings * slices = slices * rings := by ring
        unfold GetNumVerticesDisk at hksm
        omega
      refine mem_calcVbo_of_block (i := (k - 1) / rings) ?_ ?_
      · cases ct <;> simp only [if_true, Bool.false_eq_true, if_false] <;> omega
      · obtain ⟨p, hp, hpe⟩ := cover_disk_block fm slices nStacks rings cn ct hi hj0
        refine ⟨p, hp, ?_⟩
        rw [hpe]
        have hcm : (k - 1) / rings * rings = rings * ((k - 1) / rings) := by ring
        omega
  · have hid : (nStacks + 1) * ((k - GetNumVerticesDisk slices rings) / (nStacks + 1))
        + (k - GetNumVerticesDisk slices rings) % (nStacks + 1)
        = k - GetNumVerticesDisk slices rings :=
      Nat.div_add_mod _ (nStacks + 1)
    have hjle : (k - GetNumVerticesDisk slices rings) % (nStacks + 1) < nStacks + 1 :=
      Nat.mod_lt _ (by omega)
    have hcm : ∀ a : ℕ, a * (nStacks + 1) = (nStacks + 1) * a := fun a => by ring
    cases ct
    · simp only [Bool.false_eq_true, if_false] at hvc
      have hm : k - GetNumVerticesDisk slices rings < slices * (nStacks + 1) := by omega
      have hi : (k - GetNumVerticesDisk slices rings) / (nStacks + 1) < slices := by
        have hiff := Nat.div_lt_iff_lt_mul
          (x := k - GetNumVerticesDisk slices rings) (y := slices)
          (k := nStacks + 1) (by omega)
        omega
      by_cases hj : (k - GetNumVerticesDisk slices rings) % (nStacks + 1) < nStacks
      · refine mem_calcVbo_of_block
          (i := (k - GetNumVerticesDisk slices rings) / (nStacks + 1)) ?_ ?_
        · simp only [Bool.false_eq_true, if_false]
          omega
        · obtain ⟨p, hp, hpe⟩ := cover_side_block fm slices nStacks rings cn false
            (i := (k - GetNumVerticesDisk slices rings) / (nStacks + 1)) hj
          refine ⟨p, hp, ?_⟩
          rw [hpe, hcm]
          omega
      · refine mem_calcVbo_of_block
          (i := (k - GetNumVerticesDisk slices rings) / (nStacks + 1)) ?_ ?_
        · simp only [Bool.false_eq_true, if_false]
          omega
        · obtain ⟨p, hp, hpe⟩ := cover_apex_block fm slices nStacks rings cn false hi
          refine ⟨p, hp, ?_⟩
          rw [hpe, hcm]
          omega
    · simp only [if_true] at hvc
      by_cases hj : (k - GetNumVerticesDisk slices rings) % (nStacks + 1) < nStacks
      · have hi : (k - GetNumVerticesDisk slices rings) / (nStacks + 1) < slices + 1 := by
          have hiff := Nat.div_lt_iff_lt_mul
            (x := k - GetNumVerticesDisk slices rings) (y := slices + 1)
            (k := nStacks + 1) (by omega)
          have hexp : (slices + 1) * (nStacks + 1) = slices * (nStacks + 1) + (nStacks + 1) := by
            ring
          omega
        refine mem_calcVbo_of_block
          (i := (k - GetNumVerticesDisk slices rings) / (nStacks + 1)) ?_ ?_
        · simp only [if_true]
          omega
        · obtain ⟨p, hp, hpe⟩ := cover_side_block fm slices nStacks rings cn true
            (i := (k - GetNumVerticesDisk slices rings) / (nStacks + 1)) hj
          refine ⟨p, hp, ?_⟩
          rw [hpe, hcm]
          omega
      · have hi : (k - GetNumVerticesDisk slices rings) / (nStacks + 1) < slices := by
          by_contra hcon
          have hge : slices ≤ (k - GetNumVerticesDisk slices rings) / (nStacks + 1) := by
            omega
          have hmul : slices * (nStacks + 1)
              ≤ ((k - GetNumVerticesDisk slices rings) / (nStacks + 1)) * (nStacks + 1) :=
            Nat.mul_le_mul hge (le_refl _)
          rw [hcm, hcm] at hmul
          have hbridge : slices * (nStacks + 1) = (nStacks + 1) * slices := hcm slices
          omega
        refine mem_calcVbo_of_block
          (i := (k - GetNumVerticesDisk slices rings) / (nStacks + 1)) ?_ ?_
        · simp only [if_true]
          omega
        · obtain ⟨p, hp, hpe⟩ := cover_apex_block fm slices nStacks rings cn true hi
          refine ⟨p, hp, ?_⟩
          rw [hpe, hcm]
          omega

lemma succ_mod_facts {slices i : ℕ} (hs : 2 ≤ slices) (hi : i < slices) :
    (i + 1) % slices < slices ∧ (i + 1) % slices ≠ i := by
  refine ⟨Nat.mod_lt _ (by omega), ?_⟩
  rcases Nat.lt_or_ge (i + 1) slices with hlt | hge
  · rw [Nat.mod_eq_of_lt hlt]
    omega
  · have heq : i + 1 = slices := by omega
    rw [heq, Nat.mod_self]
    omega

lemma side_offsets_ne {n i ii a b : ℕ} (hn : 1 ≤ n) (hne : i ≠ ii)
    (hab : a ≤ b + 1) (hba : b ≤ a + 1) :
    i * (n + 1) + a ≠ ii * (n + 1) + b := by
  intro he
  rcases Nat.lt_or_ge i ii with hlt | hge
  · have h1 : (i + 1) * (n + 1) ≤ ii * (n + 1) := Nat.mul_le_mul hlt (le_refl _)
    have h2 : (i + 1) * (n + 1) = i * (n + 1) + (n + 1) := by ring
    omega
  · have hlt2 : ii < i := by omega
    have h1 : (ii + 1) * (n + 1) ≤ i * (n + 1) := Nat.mul_le_mul hlt2 (le_refl _)
    have h2 : (ii + 1) * (n + 1) = ii * (n + 1) + (n + 1) := by ring
    omega

lemma mul_ne_mul_add_one {r i ii : ℕ} (hr : 2 ≤ r) : i * r ≠ ii * r + 1 := by
  intro he
  have h1 : (i * r) % r = 0 := Nat.mul_mod_left i r
  have h2 : (ii * r + 1) % r = 1 % r := by
    rw [Nat.add_comm]
    exact Nat.add_mul_mod_self_right 1 ii r
  have h3 : 1 % r = 1 := Nat.mod_eq_of_lt (by omega)
  rw [he, h2, h3] at h1
  omega

lemma disk_entry_lt {slices rings x c : ℕ} (hx : x < slices) (hc : c ≤ rings) :
    x * rings + c < GetNumVerticesDisk slices rings := by
  have h1 : (x + 1) * rings ≤ slices * rings := Nat.mul_le_mul hx (le_refl _)
  have h2 : (x + 1) * rings = x * rings + rings := by ring
  have h3 : slices * rings = rings * slices := by ring
  unfold GetNumVerticesDisk
  omega

lemma mem_diskTriSlice {slices rings i : ℕ} {t : ℕ × ℕ × ℕ}
    (h : t ∈ diskTriSlice slices rings i) :
    t = (0, ((i + 1) % slices) * rings + 1, i * rings + 1) ∨
    ∃ j < rings - 1,
      t = (i * rings + 1 + j, ((i + 1) % slices) * rings + 1 + j,
           ((i + 1) % slices) * rings + 1 + j + 1) ∨
      t = (i * rings + 1 + j, ((i + 1) % slices) * rings + 1 + j + 1,
           i * rings + 1 + j + 1) := by
  unfold diskTriSlice at h
  rcases List.mem_cons.mp h with h0 | hq
  · exact Or.inl h0
  · obtain ⟨j, hj, ht⟩ := List.mem_flatMap.mp hq
    rcases List.mem_cons.mp ht with h1 | h2
    · exact Or.inr ⟨j, List.mem_range.mp hj, Or.inl h1⟩
    · rw [List.mem_singleton] at h2
      exact Or.inr ⟨j, List.mem_range.mp hj, Or.inr h2⟩

lemma mem_sideTriSlice {slices nStacks rings : ℕ} {ct : Bool} {i : ℕ} {t : ℕ × ℕ × ℕ}
    (h : t ∈ sideTriSlice slices nStacks rings ct i) :
    (∃ j ≤ nStacks - 1,
      t = ((if ct then i + 1 else (i + 1) % slices) * (nStacks + 1)
             + GetNumVerticesDisk slices rings + j,
           i * (nStacks + 1) + GetNumVerticesDisk slices rings + j + 1,
           i * (nStacks + 1) + GetNumVerticesDisk slices rings + j)) ∨
    (∃ j < nStacks - 1,
      t = ((if ct then i + 1 else (i + 1) % slices) * (nStacks + 1)
             + GetNumVerticesDisk slices rings + j,
           (if ct then i + 1 else (i + 1) % slices) * (nStacks + 1)
             + GetNumVerticesDisk slices rings + j + 1,
           i * (nStacks + 1) + GetNumVerticesDisk slices rings + j + 1)) := by
  unfold sideTriSlice at h
  rcases List.mem_append.mp h with hq | hf
  · obtain ⟨j, hj, ht⟩ := List.mem_flatMap.mp hq
    rcases List.mem_cons.mp ht with h1 | h2
    · have hj2 := List.mem_range.mp hj
      exact Or.inl ⟨j, by omega, h1⟩
    · rw [List.mem_singleton] at h2
      exact Or.inr ⟨j, List.mem_range.mp hj, h2⟩
  · rw [List.mem_singleton] at hf
    exact Or.inl ⟨nStacks - 1, le_refl _, hf⟩

lemma tri_flatten_disk (slices rings i : ℕ) :
    (diskTriSlice slices rings i).flatMap (fun t => [t.1, t.2.1, t.2.2])
      = diskEboSlice slices rings i := by
  unfold diskTriSlice diskEboSlice
  simp [List.flatMap_cons, List.flatMap_assoc]

lemma tri_flatten_side (slices nStacks rings : ℕ) (ct : Bool) (i : ℕ) :
    (sideTriSlice slices nStacks rings ct i).flatMap (fun t => [t.1, t.2.1, t.2.2])
      = sideEboSlice slices nStacks rings ct i := by
  unfold sideTriSlice sideEboSlice
  simp [List.flatMap_append, List.flatMap_cons, List.flatMap_assoc]

lemma calcEbo_eq_triangles (slices nStacks rings : ℕ) (ct : Bool) :
    CalcEbo slices nStacks rings ct
      = (EboTriangles slices nStacks rings ct).flatMap (fun t => [t.1, t.2.1, t.2.2]) := by
  unfold CalcEbo EboTriangles
  rw [List.flatMap_append, List.flatMap_assoc, List.flatMap_assoc]
  congr 1
  · exact (congrArg (List.range slices).flatMap
      (funext (fun i => tri_flatten_disk slices rings i))).symm
  · exact (congrArg (List.range slices).flatMap
      (funext (fun i => tri_flatten_side slices nStacks rings ct i))).symm

lemma diskTri_distinct {slices rings i : ℕ} (hs : 3 ≤ slices) (hr : 1 ≤ rings)
    (hi : i < slices) {t : ℕ × ℕ × ℕ} (ht : t ∈ diskTriSlice slices rings i) :
    t.1 ≠ t.2.1 ∧ t.1 ≠ t.2.2 ∧ t.2.1 ≠ t.2.2 := by
  obtain ⟨hrrlt, hrrne⟩ := succ_mod_facts (by omega) hi
  have hne1 : ((i + 1) % slices) * rings ≠ i * rings := fun he =>
    hrrne (Nat.eq_of_mul_eq_mul_right (by omega) he)
  rcases mem_diskTriSlice ht with h0 | ⟨j, hj, h1 | h2⟩
  · subst h0
    dsimp only
    refine ⟨by omega, by omega, fun he => hne1 (by omega)⟩
  · have hr2 : 2 ≤ rings := by omega
    have hne2 : i * rings ≠ ((i + 1) % slices) * rings + 1 := mul_ne_mul_add_one hr2
    subst h1
    dsimp only
    refine ⟨fun he => hne1 (by omega), fun he => hne2 (by omega), by omega⟩
  · have hr2 : 2 ≤ rings := by omega
    have hne2 : i * rings ≠ ((i + 1) % slices) * rings + 1 := mul_ne_mul_add_one hr2
    subst h2
    dsimp only
    refine ⟨fun he => hne2 (by omega), by omega, fun he => hne1 (by omega)⟩

lemma diskTri_lt {slices rings i : ℕ} (hs : 1 ≤ slices) (hr : 1 ≤ rings)
    (hi : i < slices) {t : ℕ × ℕ × ℕ} (ht : t ∈ diskTriSlice slices rings i) :
    t.1 < GetNumVerticesDisk slices rings ∧
    t.2.1 < GetNumVerticesDisk slices rings ∧
    t.2.2 < GetNumVerticesDisk slices rings := by
  have hrrlt : (i + 1) % slices < slices := Nat.mod_lt _ (by omega)
  have hvd : 1 ≤ GetNumVerticesDisk slices rings := by
    unfold GetNumVerticesDisk
    omega
  rcases mem_diskTriSlice ht with h0 | ⟨j, hj, h1 | h2⟩
  · subst h0
    dsimp only
    have ha := disk_entry_lt hrrlt (show 1 ≤ rings from hr)
    have hb := disk_entry_lt hi (show 1 ≤ rings from hr)
    exact ⟨by omega, by omega, by omega⟩
  · subst h1
    dsimp only
    have ha := disk_entry_lt hi (show 1 + j ≤ rings by omega)
    have hb := disk_entry_lt hrrlt (show 1 + j ≤ rings by omega)
    have hc := disk_entry_lt hrrlt (show 1 + j + 1 ≤ rings by omega)
    exact ⟨by omega, by omega, by omega⟩
  · subst h2
    dsimp only
    have ha := disk_entry_lt hi (show 1 + j ≤ rings by omega)
    have hb := disk_entry_lt hrrlt (show 1 + j + 1 ≤ rings by omega)
    have hc := disk_entry_lt hi (show 1 + j + 1 ≤ rings by omega)
    exact ⟨by omega, by omega, by omega⟩

lemma sideTri_subMesh_facts (slices nStacks : ℕ) (ct : Bool) {i : ℕ}
    (hs : 2 ≤ slices) (hi : i < slices) :
    (if ct then i + 1 else (i + 1) % slices) ≤ slices ∧
    (if ct then i + 1 else (i + 1) % slices) ≠ i ∧
    (ct = false → (if ct then i + 1 else (i + 1) % slices) < slices) := by
  obtain ⟨hlt, hne⟩ := succ_mod_facts hs hi
  cases ct
  · simp only [Bool.false_eq_true, if_false]
    exact ⟨by omega, hne, fun _ => hlt⟩
  · simp only [if_true]
    refine ⟨by omega, by omega, by simp⟩

lemma sideTri_bounds {slices nStacks rings : ℕ} {ct : Bool} {i : ℕ}
    (hs : 2 ≤ slices) (hn : 1 ≤ nStacks) (hi : i < slices) {t : ℕ × ℕ × ℕ}
    (ht : t ∈ sideTriSlice slices nStacks rings ct i) :
    (GetNumVerticesDisk slices rings ≤ t.1 ∧
      t.1 < vertexCount slices nStacks rings ct) ∧
    (GetNumVerticesDisk slices rings ≤ t.2.1 ∧
      t.2.1 < vertexCount slices nStacks rings ct) ∧
    (GetNumVerticesDisk slices rings ≤ t.2.2 ∧
      t.2.2 < vertexCount slices nStacks rings ct) := by
  have hvc := vertexCount_eq slices nStacks rings ct
  obtain ⟨hii_le, hii_ne, hii_lt⟩ := sideTri_subMesh_facts slices nStacks ct hs hi
  have hib := side_slot_lt_of_lt hi (le_refl nStacks)
  rcases mem_sideTriSlice ht with ⟨j, hj, h1⟩ | ⟨j, hj, h2⟩
  · subst h1
    dsimp only
    have ha : (if ct then i + 1 else (i + 1) % slices) * (nStacks + 1) + j
        < slices * (nStacks + 1) + nStacks := side_slot_lt_of_le hii_le (by omega)
    have hb := side_slot_lt_of_lt hi (show j + 1 ≤ nStacks by omega)
    cases ct
    · have hc := side_slot_lt_of_lt (hii_lt rfl) (show j ≤ nStacks by omega)
      simp only [Bool.false_eq_true, if_false] at hvc hc ⊢
      exact ⟨⟨by omega, by omega⟩, ⟨by omega, by omega⟩, ⟨by omega, by omega⟩⟩
    · simp only [if_true] at hvc ha ⊢
      exact ⟨⟨by omega, by omega⟩, ⟨by omega, by omega⟩, ⟨by omega, by omega⟩⟩
  · subst h2
    dsimp only
    have ha : (if ct then i + 1 else (i + 1) % slices) * (nStacks + 1) + j
        < slices * (nStacks + 1) + nStacks := side_slot_lt_of_le hii_le (by omega)
    have ha2 : (if ct then i + 1 else (i + 1) % slices) * (nStacks + 1) + (j + 1)
        < slices * (nStacks + 1) + nStacks := side_slot_lt_of_le hii_le (by omega)
    have hb := side_slot_lt_of_lt hi (show j + 1 ≤ nStacks by omega)
    cases ct
    · have hc := side_slot_lt_of_lt (hii_lt rfl) (show j ≤ nStacks by omega)
      have hc2 := side_slot_lt_of_lt (hii_lt rfl) (show j + 1 ≤ nStacks by omega)
      simp only [Bool.false_eq_true, if_false] at hvc hc hc2 ⊢
      exact ⟨⟨by omega, by omega⟩, ⟨by omega, by omega⟩, ⟨by omega, by omega⟩⟩
    · simp only [if_true] at hvc ha ha2 ⊢
      exact ⟨⟨by omega, by omega⟩, ⟨by omega, by omega⟩, ⟨by omega, by omega⟩⟩

lemma sideTri_distinct {slices nStacks rings : ℕ} {ct : Bool} {i : ℕ}
    (hs : 2 ≤ slices) (hn : 1 ≤ nStacks) (hi : i < slices) {t : ℕ × ℕ × ℕ}
    (ht : t ∈ sideTriSlice slices nStacks rings ct i) :
    t.1 ≠ t.2.1 ∧ t.1 ≠ t.2.2 ∧ t.2.1 ≠ t.2.2 := by
  obtain ⟨hii_le, hii_ne, hii_lt⟩ := sideTri_subMesh_facts slices nStacks ct hs hi
  rcases mem_sideTriSlice ht with ⟨j, hj, h1⟩ | ⟨j, hj, h2⟩
  · subst h1
    dsimp only
    have ha := side_offsets_ne (a := j) (b := j + 1) hn hii_ne (by omega) (by omega)
    have hb := side_offsets_ne (a := j) (b := j) hn hii_ne (by omega) (by omega)
    refine ⟨?_, ?_, by omega⟩
    · intro he
      exact ha (by omega)
    · intro he
      exact hb (by omega)
  · subst h2
    dsimp only
    have ha := side_offsets_ne (a := j) (b := j + 1) hn hii_ne (by omega) (by omega)
    have hb := side_offsets_ne (a := j + 1) (b := j + 1) hn hii_ne (by omega) (by omega)
    refine ⟨by omega, ?_, ?_⟩
    · intro he
      exact ha (by omega)
    · intro he
      exact hb (by omega)

lemma diskPart_length (slices rings : ℕ) (hr : 1 ≤ rings) :
    ((List.range slices).flatMap (diskEboSlice slices rings)).length
      = GetNumElementsDisk slices rings := by
  simp only [List.length_flatMap, Function.comp_def]
  have h1 : (List.range slices).map (fun i => (diskEboSlice slices rings i).length)
      = (List.range slices).map (fun _ => 3 * (2 * rings - 1)) :=
    List.map_congr_left (fun i _ => diskEboSlice_length slices rings i hr)
  rw [h1, sum_map_range_const]
  unfold GetNumElementsDisk
  have hcm : ∀ a s : ℕ, s * a = a * s := fun a s => by ring
  exact hcm _ _

lemma mem_diskEbo_entry {slices rings i k : ℕ} (hs : 1 ≤ slices) (hr : 1 ≤ rings)
    (hi : i < slices) (hk : k ∈ diskEboSlice slices rings i) :
    k < GetNumVerticesDisk slices rings := by
  rw [← tri_flatten_disk] at hk
  obtain ⟨t, htm, hkm⟩ := List.mem_flatMap.mp hk
  have hlt := diskTri_lt hs hr hi htm
  rcases List.mem_cons.mp hkm with h1 | hkm2
  · exact h1 ▸ hlt.1
  rcases List.mem_cons.mp hkm2 with h2 | hkm3
  · exact h2 ▸ hlt.2.1
  · rw [List.mem_singleton] at hkm3
    exact hkm3 ▸ hlt.2.2

lemma mem_sideEbo_entry {slices nStacks rings : ℕ} {ct : Bool} {i k : ℕ}
    (hs : 2 ≤ slices) (hn : 1 ≤ nStacks) (hi : i < slices)
    (hk : k ∈ sideEboSlice slices nStacks rings ct i) :
    GetNumVerticesDisk slices rings ≤ k ∧ k < vertexCount slices nStacks rings ct := by
  rw [← tri_flatten_side] at hk
  obtain ⟨t, htm, hkm⟩ := List.mem_flatMap.mp hk
  have hb := sideTri_bounds hs hn hi htm
  rcases List.mem_cons.mp hkm with h1 | hkm2
  · exact h1 ▸ hb.1
  rcases List.mem_cons.mp hkm2 with h2 | hkm3
  · exact h2 ▸ hb.2.1
  · rw [List.mem_singleton] at hkm3
    exact hkm3 ▸ hb.2.2

/-- A sample interpretation of the abstracted float values, used only to
instantiate universally quantified theorems at concrete inputs. -/
def fmZero : FloatModel := ⟨fun _ => 0, fun _ => 0, fun _ => 0, fun _ => 0, 0⟩

/-! ## Claim C1: exact buffer fill -/

/-- Claim C1: for every valid resolution triple (slices ≥ 3, stacks ≥ 1,
rings ≥ 1) and every choice of enabled attributes, `CalcVboAndEbo` emits
exactly `GetNumElements` index entries (the EBO is written sequentially, so its
length is the exact number of entries written), writes exactly as many vertex
records as the matching vertex-count query, every vertex record lands at a
record index inside the buffer sized by that query, and every record inside it
is written. -/
theorem calcVboAndEbo_exact_fill (fm : FloatModel) (slices nStacks rings : ℕ)
    (vertNormalOffset vertTexCoordsOffset : ℤ)
    (hs : 3 ≤ slices) (hn : 1 ≤ nStacks) (hr : 1 ≤ rings) :
    ((CalcVboAndEbo fm slices nStacks rings vertNormalOffset vertTexCoordsOffset).2.length
        = GetNumElements slices nStacks rings) ∧
    ((CalcVboAndEbo fm slices nStacks rings vertNormalOffset vertTexCoordsOffset).1.length
        = vertexCount slices nStacks rings (decide (0 ≤ vertTexCoordsOffset))) ∧
    (∀ p ∈ (CalcVboAndEbo fm slices nStacks rings vertNormalOffset vertTexCoordsOffset).1,
        p.1 < vertexCount slices nStacks rings (decide (0 ≤ vertTexCoordsOffset))) ∧
    (∀ k < vertexCount slices nStacks rings (decide (0 ≤ vertTexCoordsOffset)),
        ∃ p ∈ (CalcVboAndEbo fm slices nStacks rings
          vertNormalOffset vertTexCoordsOffset).1, p.1 = k) :=
  ⟨calcEbo_length slices nStacks rings _ hn hr,
   calcVbo_length fm slices nStacks rings _ _ (by omega),
   fun _ hp => calcVbo_fst_lt (by omega) hp,
   fun _ hk => calcVbo_covers (by omega) hr hk⟩

/-- Witness for C1 at the concrete input (3, 1, 1) with both optional
attributes disabled. -/
theorem calcVboAndEbo_exact_fill_witness :
    (3 ≤ 3 ∧ 1 ≤ 1 ∧ 1 ≤ 1) ∧
    (((CalcVboAndEbo fmZero 3 1 1 (-1) (-1)).2.length = GetNumElements 3 1 1) ∧
     ((CalcVboAndEbo fmZero 3 1 1 (-1) (-1)).1.length
        = vertexCount 3 1 1 (decide (0 ≤ (-1 : ℤ)))) ∧
     (∀ p ∈ (CalcVboAndEbo fmZero 3 1 1 (-1) (-1)).1,
        p.1 < vertexCount 3 1 1 (decide (0 ≤ (-1 : ℤ)))) ∧
     (∀ k < vertexCount 3 1 1 (decide (0 ≤ (-1 : ℤ))),
        ∃ p ∈ (CalcVboAndEbo fmZero 3 1 1 (-1) (-1)).1, p.1 = k)) :=
  ⟨⟨by decide, by decide, by decide⟩,
   calcVboAndEbo_exact_fill fmZero 3 1 1 (-1) (-1) (by decide) (by decide) (by decide)⟩

/-! ## Claim C3: triangle indices are distinct and in bounds -/

/-- Claim C3: the EBO written by `CalcVboAndEbo` is exactly the flattening of
the emitted triangle list, and every emitted triangle has three pairwise
distinct corner indices, each inside `[0, vertexCount)` for the matching
vertex-count query. -/
theorem ebo_triangles_distinct_and_inbounds (fm : FloatModel)
    (slices nStacks rings : ℕ) (vertNormalOffset vertTexCoordsOffset : ℤ)
    (hs : 3 ≤ slices) (hn : 1 ≤ nStacks) (hr : 1 ≤ rings) :
    ((CalcVboAndEbo fm slices nStacks rings vertNormalOffset vertTexCoordsOffset).2
        = (EboTriangles slices nStacks rings (decide (0 ≤ vertTexCoordsOffset))).flatMap
            (fun t => [t.1, t.2.1, t.2.2])) ∧
    ∀ t ∈ EboTriangles slices nStacks rings (decide (0 ≤ vertTexCoordsOffset)),
      (t.1 ≠ t.2.1 ∧ t.1 ≠ t.2.2 ∧ t.2.1 ≠ t.2.2) ∧
      t.1 < vertexCount slices nStacks rings (decide (0 ≤ vertTexCoordsOffset)) ∧
      t.2.1 < vertexCount slices nStacks rings (decide (0 ≤ vertTexCoordsOffset)) ∧
      t.2.2 < vertexCount slices nStacks rings (decide (0 ≤ vertTexCoordsOffset)) := by
  refine ⟨calcEbo_eq_triangles slices nStacks rings _, ?_⟩
  intro t ht
  unfold EboTriangles at ht
  have hvc := vertexCount_eq slices nStacks rings (decide (0 ≤ vertTexCoordsOffset))
  rcases List.mem_append.mp ht with hd | hsd
  · obtain ⟨i, hir, hti⟩ := List.mem_flatMap.mp hd
    have hi := List.mem_range.mp hir
    have hdist := diskTri_distinct hs hr hi hti
    have hlt := diskTri_lt (by omega) hr hi hti
    exact ⟨hdist, by omega, by omega, by omega⟩
  · obtain ⟨i, hir, hti⟩ := List.mem_flatMap.mp hsd
    have hi := List.mem_range.mp hir
    have hdist := sideTri_distinct (by omega) hn hi hti
    have hb := sideTri_bounds (by omega) hn hi hti
    exact ⟨hdist, hb.1.2, hb.2.1.2, hb.2.2.2⟩

/-- Witness for C3 at the concrete input (3, 1, 1) with texture coordinates
enabled. -/
theorem ebo_triangles_distinct_and_inbounds_witness :
    (3 ≤ 3 ∧ 1 ≤ 1 ∧ 1 ≤ 1) ∧
    (((CalcVboAndEbo fmZero 3 1 1 (-1) 0).2
        = (EboTriangles 3 1 1 (decide (0 ≤ (0 : ℤ)))).flatMap
            (fun t => [t.1, t.2.1, t.2.2])) ∧
     ∀ t ∈ EboTriangles 3 1 1 (decide (0 ≤ (0 : ℤ))),
      (t.1 ≠ t.2.1 ∧ t.1 ≠ t.2.2 ∧ t.2.1 ≠ t.2.2) ∧
      t.1 < vertexCount 3 1 1 (decide (0 ≤ (0 : ℤ))) ∧
      t.2.1 < vertexCount 3 1 1 (decide (0 ≤ (0 : ℤ))) ∧
      t.2.2 < vertexCount 3 1 1 (decide (0 ≤ (0 : ℤ)))) :=
  ⟨⟨by decide, by decide, by decide⟩,
   ebo_triangles_distinct_and_inbounds fmZero 3 1 1 (-1) 0
     (by decide) (by decide) (by decide)⟩

/-! ## Claim C10: the EBO is partitioned by sub-mesh -/

/-- Claim C10: the first `GetNumElementsDisk` EBO entries all reference disk
vertices (indices below `GetNumVerticesDisk`), and the remaining entries all
reference side vertices (indices in `[GetNumVerticesDisk, vertexCount)`), so
the `RenderBase` and `RenderSide` sub-range draws reference disjoint vertex
sets. -/
theorem ebo_partitioned_by_submesh (fm : FloatModel) (slices nStacks rings : ℕ)
    (vertNormalOffset vertTexCoordsOffset : ℤ)
    (hs : 3 ≤ slices) (hn : 1 ≤ nStacks) (hr : 1 ≤ rings) :
    (∀ k ∈ ((CalcVboAndEbo fm slices nStacks rings
        vertNormalOffset vertTexCoordsOffset).2).take (GetNumElementsDisk slices rings),
      k < GetNumVerticesDisk slices rings) ∧
    (∀ k ∈ ((CalcVboAndEbo fm slices nStacks rings
        vertNormalOffset vertTexCoordsOffset).2).drop (GetNumElementsDisk slices rings),
      GetNumVerticesDisk slices rings ≤ k ∧
        k < vertexCount slices nStacks rings (decide (0 ≤ vertTexCoordsOffset))) := by
  have hbridge : (CalcVboAndEbo fm slices nStacks rings
      vertNormalOffset vertTexCoordsOffset).2
      = (List.range slices).flatMap (diskEboSlice slices rings)
        ++ (List.range slices).flatMap
            (sideEboSlice slices nStacks rings (decide (0 ≤ vertTexCoordsOffset))) := rfl
  have hlen := diskPart_length slices rings hr
  constructor
  · intro k hk
    rw [hbridge, List.take_left' hlen] at hk
    obtain ⟨i, hir, hki⟩ := List.mem_flatMap.mp hk
    exact mem_diskEbo_entry (by omega) hr (List.mem_range.mp hir) hki
  · intro k hk
    rw [hbridge, List.drop_left' hlen] at hk
    obtain ⟨i, hir, hki⟩ := List.mem_flatMap.mp hk
    exact mem_sideEbo_entry (by omega) hn (List.mem_range.mp hir) hki

/-- Witness for C10 at the concrete input (3, 1, 1) with texture coordinates
disabled. -/
theorem ebo_partitioned_by_submesh_witness :
    (3 ≤ 3 ∧ 1 ≤ 1 ∧ 1 ≤ 1) ∧
    ((∀ k ∈ ((CalcVboAndEbo fmZero 3 1 1 (-1) (-1)).2).take (GetNumElementsDisk 3 1),
        k < GetNumVerticesDisk 3 1) ∧
     (∀ k ∈ ((CalcVboAndEbo fmZero 3 1 1 (-1) (-1)).2).drop (GetNumElementsDisk 3 1),
        GetNumVerticesDisk 3 1 ≤ k ∧ k < vertexCount 3 1 1 (decide (0 ≤ (-1 : ℤ))))) :=
  ⟨⟨by decide, by decide, by decide⟩,
   ebo_partitioned_by_submesh fmZero 3 1 1 (-1) (-1) (by decide) (by decide) (by decide)⟩

/-! ## Apex and seam vertex analysis (claims C7, C8, C9) -/

lemma filter_flatMap_eq {α β : Type} (l : List α) (f : α → List β) (p : β → Bool) :
    (l.flatMap f).filter p = l.flatMap (fun x => (f x).filter p) := by
  induction l with
  | nil => rfl
  | cons a t ih => simp only [List.flatMap_cons, List.filter_append, ih]

lemma baseVert_pos_ne_apex (rings : ℕ) (cn ct : Bool) (x z : ℚ) (i j : ℕ) :
    (SetBaseVert rings cn ct x z i j).2.pos ≠ ((0:ℚ), (1:ℚ), (0:ℚ)) := by
  intro hcontra
  have h2 : (0:ℚ) = 1 := congrArg (fun q => q.2.1) hcontra
  exact absurd h2 (by norm_num)

lemma sideVertex_pos_ne_apex (fm : FloatModel) (slices nStacks : ℕ) (cn ct : Bool)
    (i j : ℕ) (hj : j < nStacks) :
    (sideVertex fm slices nStacks cn ct i j).pos ≠ ((0:ℚ), (1:ℚ), (0:ℚ)) := by
  have h0 : 0 < nStacks := Nat.lt_of_le_of_lt (Nat.zero_le j) hj
  have hlt : ((j:ℚ) / (nStacks:ℚ)) < 1 :=
    (div_lt_one (by exact_mod_cast h0)).mpr (by exact_mod_cast hj)
  intro hcontra
  have h2 : ((j:ℚ) / (nStacks:ℚ)) = 1 := congrArg (fun q => q.2.1) hcontra
  exact absurd h2 (ne_of_lt hlt)

lemma apexVertex_pos (fm : FloatModel) (cn ct : Bool) (i : ℕ) :
    (apexVertex fm cn ct i).pos = ((0:ℚ), (1:ℚ), (0:ℚ)) := rfl

lemma filter_apex_block (fm : FloatModel) (slices nStacks rings : ℕ) (cn ct : Bool)
    (i : ℕ) :
    ((sliceVboBlock fm slices nStacks rings cn ct i).filter
        (fun p => p.2.pos = ((0:ℚ), (1:ℚ), (0:ℚ)))).map Prod.fst
      = if i < slices then
          [GetNumVerticesDisk slices rings + i * (nStacks + 1) + nStacks]
        else [] := by
  unfold sliceVboBlock
  rw [List.filter_append, List.filter_append]
  have hdisk : ((if i < slices then
      (List.range rings).map (fun j0 =>
        let j : ℕ := j0 + 1
        let radius : ℚ := (j : ℚ) / (rings : ℚ)
        SetBaseVert rings cn ct (fm.sinTheta (i % slices) * radius)
          (fm.cosTheta (i % slices) * radius) i j)
      else []).filter (fun p => p.2.pos = ((0:ℚ), (1:ℚ), (0:ℚ)))) = [] := by
    refine List.filter_eq_nil_iff.mpr ?_
    intro a ha
    by_cases h : i < slices
    · rw [if_pos h] at ha
      obtain ⟨j0, _, hpe⟩ := List.mem_map.mp ha
      rw [← hpe]
      simp only [decide_eq_true_eq]
      exact baseVert_pos_ne_apex rings cn ct _ _ i (j0 + 1)
    · rw [if_neg h] at ha
      exact absurd ha (List.not_mem_nil a)
  have hside : (((List.range nStacks).map (fun j =>
      (GetNumVerticesDisk slices rings + i * (nStacks + 1) + j,
        sideVertex fm slices nStacks cn ct i j))).filter
          (fun p => p.2.pos = ((0:ℚ), (1:ℚ), (0:ℚ)))) = [] := by
    refine List.filter_eq_nil_iff.mpr ?_
    intro a ha
    obtain ⟨j, hj, hpe⟩ := List.mem_map.mp ha
    rw [← hpe]
    simp only [decide_eq_true_eq]
    exact sideVertex_pos_ne_apex fm slices nStacks cn ct i j (List.mem_range.mp hj)
  rw [hdisk, hside]
  by_cases h : i < slices
  · rw [if_pos h, if_pos h]
    have hap : (decide ((apexVertex fm cn ct i).pos = ((0:ℚ), (1:ℚ), (0:ℚ)))) = true :=
      decide_eq_true (apexVertex_pos fm cn ct i)
    simp [List.filter_cons, hap]
  · rw [if_neg h, if_neg h]
    rfl

lemma flatMap_range_ite_singleton {β : Type} (g : ℕ → β) (m : ℕ) :
    ∀ n, n ≤ m →
      (List.range n).flatMap (fun i => if i < m then [g i] else [])
        = (List.range n).map g := by
  intro n
  induction n with
  | zero => intro _; rfl
  | succ k ih =>
    intro h
    rw [List.range_succ, List.flatMap_append, List.map_append, ih (by omega)]
    simp [if_pos (show k < m by omega)]

lemma calcVbo_apex_filter (fm : FloatModel) (slices nStacks rings : ℕ) (cn ct : Bool)
    (hs : 1 ≤ slices) :
    ((CalcVbo fm slices nStacks rings cn ct).filter
        (fun p => p.2.pos = ((0:ℚ), (1:ℚ), (0:ℚ)))).map Prod.fst
      = (List.range slices).map
          (fun i => GetNumVerticesDisk slices rings + i * (nStacks + 1) + nStacks) := by
  unfold CalcVbo
  rw [List.filter_cons]
  have hcenter : (decide ((SetBaseVert rings cn ct 0 0 0 0).2.pos
      = ((0:ℚ), (1:ℚ), (0:ℚ)))) = false :=
    decide_eq_false (baseVert_pos_ne_apex rings cn ct 0 0 0 0)
  rw [hcenter]
  simp only [Bool.false_eq_true, if_false]
  rw [filter_flatMap_eq, List.map_flatMap]
  have hbl : (fun i => (((sliceVboBlock fm slices nStacks rings cn ct i).filter
        (fun p => p.2.pos = ((0:ℚ), (1:ℚ), (0:ℚ)))).map Prod.fst))
      = (fun i => if i < slices then
          [GetNumVerticesDisk slices rings + i * (nStacks + 1) + nStacks] else []) :=
    funext (fun i => filter_apex_block fm slices nStacks rings cn ct i)
  rw [hbl]
  cases ct
  · simp only [Bool.false_eq_true, if_false]
    have hrange : slices - 1 + 1 = slices := by omega
    rw [hrange]
    exact flatMap_range_ite_singleton _ slices slices (le_refl slices)
  · simp only [if_true]
    rw [List.range_succ, List.flatMap_append,
      flatMap_range_ite_singleton _ slices slices (le_refl slices)]
    simp

/-! ## Claim C9: apex vertices -/

/-- Claim C9: for every valid resolution triple (and any attribute choice),
the vertex records whose position equals exactly `(0, 1, 0)` are precisely the
`slices` apex records, one per slice at record index
`GetNumVerticesDisk + i * (stacks + 1) + stacks`, in slice order: exactly
`slices` apex vertices are written and every apex vertex position is exactly
`(0, 1, 0)` (no other record carries that position: disk records have height 0
and side records height `j / stacks < 1`). -/
theorem apex_vertices_exact (fm : FloatModel) (slices nStacks rings : ℕ)
    (vertNormalOffset vertTexCoordsOffset : ℤ)
    (hs : 3 ≤ slices) (hn : 1 ≤ nStacks) (hr : 1 ≤ rings) :
    (((CalcVboAndEbo fm slices nStacks rings
          vertNormalOffset vertTexCoordsOffset).1.filter
        (fun p => p.2.pos = ((0:ℚ), (1:ℚ), (0:ℚ)))).map Prod.fst
      = (List.range slices).map
          (fun i => GetNumVerticesDisk slices rings + i * (nStacks + 1) + nStacks)) ∧
    (((CalcVboAndEbo fm slices nStacks rings
          vertNormalOffset vertTexCoordsOffset).1.filter
        (fun p => p.2.pos = ((0:ℚ), (1:ℚ), (0:ℚ)))).length = slices) := by
  have h := calcVbo_apex_filter fm slices nStacks rings
    (decide (0 ≤ vertNormalOffset)) (decide (0 ≤ vertTexCoordsOffset)) (by omega)
  refine ⟨h, ?_⟩
  have hlen := congrArg List.length h
  simpa using hlen

/-- Witness for C9 at the concrete input (3, 1, 1). -/
theorem apex_vertices_exact_witness :
    (3 ≤ 3 ∧ 1 ≤ 1 ∧ 1 ≤ 1) ∧
    ((((CalcVboAndEbo fmZero 3 1 1 (-1) (-1)).1.filter
        (fun p => p.2.pos = ((0:ℚ), (1:ℚ), (0:ℚ)))).map Prod.fst
      = (List.range 3).map (fun i => GetNumVerticesDisk 3 1 + i * (1 + 1) + 1)) ∧
     (((CalcVboAndEbo fmZero 3 1 1 (-1) (-1)).1.filter
        (fun p => p.2.pos = ((0:ℚ), (1:ℚ), (0:ℚ)))).length = 3)) :=
  ⟨⟨by decide, by decide, by decide⟩,
   apex_vertices_exact fmZero 3 1 1 (-1) (-1) (by decide) (by decide) (by decide)⟩

/-! ## Claim C7: the extra texcoord iteration and the disk writes -/

lemma map_fst_block (fm : FloatModel) (slices nStacks rings : ℕ) (cn ct : Bool) (i : ℕ) :
    (sliceVboBlock fm slices nStacks rings cn ct i).map Prod.fst
      = (if i < slices then (List.range rings).map (fun j0 => i * rings + (j0 + 1))
         else [])
        ++ (List.range nStacks).map
            (fun j => GetNumVerticesDisk slices rings + i * (nStacks + 1) + j)
        ++ (if i < slices then
            [GetNumVerticesDisk slices rings + i * (nStacks + 1) + nStacks] else []) := by
  unfold sliceVboBlock
  by_cases h : i < slices
  · simp only [if_pos h, List.map_append, List.map_map, List.map_cons, List.map_nil]
    congr 1
  · simp only [if_neg h, List.map_append, List.map_map, List.map_nil]
    congr 1

/-- Claim C7 counterexample: at (slices, stacks, rings) = (3, 1, 1), the disk
region record writes (records below `GetNumVerticesDisk 3 1 = 4`) are the same
`[0, 1, 2, 3]` with texture coordinates enabled as with them disabled: each
disk record is written exactly once and no duplicated seam slice of disk ring
vertices exists; the one extra loop iteration only adds a single extra vertex
record (the side seam stack vertex), as the total write counts show. -/
theorem no_disk_seam_duplication_counterexample :
    (((CalcVboAndEbo fmZero 3 1 1 (-1) 0).1.filter
        (fun p => decide (p.1 < GetNumVerticesDisk 3 1))).map Prod.fst = [0, 1, 2, 3]) ∧
    (((CalcVboAndEbo fmZero 3 1 1 (-1) (-1)).1.filter
        (fun p => decide (p.1 < GetNumVerticesDisk 3 1))).map Prod.fst = [0, 1, 2, 3]) ∧
    ((CalcVboAndEbo fmZero 3 1 1 (-1) 0).1.length
      = (CalcVboAndEbo fmZero 3 1 1 (-1) (-1)).1.length + 1) := by decide

/-- Claim C7 (amended): with texture coordinates requested the vertex loop runs
one extra slice index, but the disk ring vertices are written only for
`i < slices` in both modes (the guard at GlGeomCone.cpp line 61): the record
indices written with texture coordinates are exactly the record indices written
without them followed by the `stacks` extra side seam records
`GetNumVerticesDisk + slices * (stacks + 1) + j`; no disk ring vertex is
duplicated.  Without texture coordinates the loop runs exactly `slices`
iterations. -/
theorem texcoord_extra_iteration_side_only (fm : FloatModel)
    (slices nStacks rings : ℕ) (cn : Bool) (hs : 3 ≤ slices) :
    (CalcVbo fm slices nStacks rings cn true).map Prod.fst
      = (CalcVbo fm slices nStacks rings cn false).map Prod.fst
        ++ (List.range nStacks).map
            (fun j => GetNumVerticesDisk slices rings + slices * (nStacks + 1) + j) := by
  unfold CalcVbo
  simp only [if_true, Bool.false_eq_true, if_false]
  have hrange : slices - 1 + 1 = slices := by omega
  rw [hrange, List.range_succ, List.flatMap_append, List.map_cons, List.map_cons,
    List.cons_append, List.map_append]
  congr 1
  congr 1
  · rw [List.map_flatMap, List.map_flatMap]
    refine congrArg _ (funext fun i => ?_)
    rw [map_fst_block, map_fst_block]
  · simp only [List.flatMap_cons, List.flatMap_nil, List.append_nil]
    rw [map_fst_block]
    simp [lt_irrefl]

/-- Witness for the amended C7 theorem at the concrete input (3, 1, 1). -/
theorem texcoord_extra_iteration_side_only_witness :
    3 ≤ 3 ∧
    (CalcVbo fmZero 3 1 1 false true).map Prod.fst
      = (CalcVbo fmZero 3 1 1 false false).map Prod.fst
        ++ (List.range 1).map (fun j => GetNumVerticesDisk 3 1 + 3 * (1 + 1) + j) :=
  ⟨by decide, texcoord_extra_iteration_side_only fmZero 3 1 1 false (by decide)⟩

/-! ## Claim C8: the duplicated side seam vertices -/

lemma sideWrite_mem_calcVbo (fm : FloatModel) (slices nStacks rings : ℕ) (cn : Bool)
    {i j : ℕ} (hi : i ≤ slices) (hj : j < nStacks) :
    (GetNumVerticesDisk slices rings + i * (nStacks + 1) + j,
      sideVertex fm slices nStacks cn true i j)
      ∈ CalcVbo fm slices nStacks rings cn true := by
  refine List.mem_cons_of_mem _ (List.mem_flatMap.mpr ⟨i, List.mem_range.mpr ?_, ?_⟩)
  · simp only [if_true]
    omega
  · unfold sliceVboBlock
    exact List.mem_append_left _ (List.mem_append_right _
      (List.mem_map.mpr ⟨j, List.mem_range.mpr hj, rfl⟩))

/-- Claim C8: with texture coordinates enabled, the side vertices written for
slice index 0 and slice index `slices` (the seam duplicate) occupy distinct
vertex records, have identical positions (the angle is computed from
`i % slices`, which is 0 for both), and carry texture s-coordinate 0 for slice
0 and 1 for slice `slices`. -/
theorem side_seam_duplicate_positions (fm : FloatModel) (slices nStacks rings : ℕ)
    (cn : Bool) (j : ℕ) (hs : 3 ≤ slices) (hj : j < nStacks) :
    ((GetNumVerticesDisk slices rings + 0 * (nStacks + 1) + j,
        sideVertex fm slices nStacks cn true 0 j)
      ∈ CalcVbo fm slices nStacks rings cn true) ∧
    ((GetNumVerticesDisk slices rings + slices * (nStacks + 1) + j,
        sideVertex fm slices nStacks cn true slices j)
      ∈ CalcVbo fm slices nStacks rings cn true) ∧
    (GetNumVerticesDisk slices rings + 0 * (nStacks + 1) + j
      ≠ GetNumVerticesDisk slices rings + slices * (nStacks + 1) + j) ∧
    ((sideVertex fm slices nStacks cn true 0 j).pos
      = (sideVertex fm slices nStacks cn true slices j).pos) ∧
    ((sideVertex fm slices nStacks cn true 0 j).texcoords
      = some (0, (j:ℚ) / (nStacks:ℚ))) ∧
    ((sideVertex fm slices nStacks cn true slices j).texcoords
      = some (1, (j:ℚ) / (nStacks:ℚ))) := by
  have hdiv : ((slices:ℕ):ℚ) / ((slices:ℕ):ℚ) = 1 :=
    div_self (Nat.cast_ne_zero.mpr (by omega))
  refine ⟨sideWrite_mem_calcVbo fm slices nStacks rings cn (by omega) hj,
    sideWrite_mem_calcVbo fm slices nStacks rings cn (le_refl slices) hj, ?_, ?_, ?_, ?_⟩
  · have hz : 0 * (nStacks + 1) = 0 := Nat.zero_mul _
    have hp : 0 < slices * (nStacks + 1) := Nat.mul_pos (by omega) (by omega)
    omega
  · simp [sideVertex, Nat.zero_mod, Nat.mod_self]
  · simp [sideVertex]
  · simp [sideVertex, hdiv]

/-- Witness for C8 at the concrete input (3, 1, 1) and stack index 0. -/
theorem side_seam_duplicate_positions_witness :
    (3 ≤ 3 ∧ 0 < 1) ∧
    (((GetNumVerticesDisk 3 1 + 0 * (1 + 1) + 0,
        sideVertex fmZero 3 1 false true 0 0) ∈ CalcVbo fmZero 3 1 1 false true) ∧
     ((GetNumVerticesDisk 3 1 + 3 * (1 + 1) + 0,
        sideVertex fmZero 3 1 false true 3 0) ∈ CalcVbo fmZero 3 1 1 false true) ∧
     (GetNumVerticesDisk 3 1 + 0 * (1 + 1) + 0
        ≠ GetNumVerticesDisk 3 1 + 3 * (1 + 1) + 0) ∧
     ((sideVertex fmZero 3 1 false true 0 0).pos
        = (sideVertex fmZero 3 1 false true 3 0).pos) ∧
     ((sideVertex fmZero 3 1 false true 0 0).texcoords = some (0, (0:ℚ) / (1:ℚ))) ∧
     ((sideVertex fmZero 3 1 false true 3 0).texcoords = some (1, (0:ℚ) / (1:ℚ)))) :=
  ⟨⟨by decide, by decide⟩,
   side_seam_duplicate_positions fmZero 3 1 1 false 0 (by decide) (by decide)⟩
